import Mathlib

/-!
Shallow embedding of the geometric-algebra repository.

Two product engines appear in the source:
* a direct, on-the-fly realization (src/src/Multivector.py): the helpers
  compute_output_index / compute_output_parity / compute_num_transpositions
  plus the MultiVector value type with add, from_vector, geometric_product
  and equality;
* a tabulated realization (src/GAlgebra_Jake.py): the class GN with its
  canonical_basis ordering, the label-level rule GN.basis_mult, the sign/index
  table where_m with a scalar sentinel, and MultiVector.sum / MultiVector.prod.

Coefficients are modelled over the rationals: every numeric value occurring in
the source tests and claims is a small dyadic rational, on which Python float
arithmetic is exact, so the rational model is faithful.
-/

namespace GeoAlg

/-- Model of Python int.to_bytes(L, byteorder little): the L base-256 digits of
the number, least significant first. -/
def toBytesLE : Nat → Nat → List Nat
  | 0, _ => []
  | l + 1, x => x % 256 :: toBytesLE l (x / 256)

/-- Model of Python int.from_bytes(bs, byteorder little): assemble the base-256
digits, least significant first. -/
def fromBytesLE : List Nat → Nat
  | [] => 0
  | b :: bs => b + 256 * fromBytesLE bs

/-- Fuel-driven helper for bit_length: halve until zero, counting steps. The
fuel only bounds the recursion depth; fuel x always suffices. -/
def bitLenAux : Nat → Nat → Nat
  | 0, _ => 0
  | fuel + 1, x => if x = 0 then 0 else bitLenAux fuel (x / 2) + 1

/-- Model of Python int.bit_length: the number of binary digits of x, with
bit_length 0 = 0. -/
def bit_length (x : Nat) : Nat := bitLenAux x x

/-- Embedding of compute_output_index from src/src/Multivector.py: XOR of the
two blade indices followed by the little-endian byte round-trip that the
source applies (result.to_bytes with (bit_length + 7) / 8 bytes, then
int.from_bytes). -/
def compute_output_index (idx_1 idx_2 : Nat) : Nat :=
  let result := idx_1 ^^^ idx_2
  fromBytesLE (toBytesLE ((bit_length result + 7) / 8) result)

/-- Model of np.searchsorted(arr, v, side right) on a sorted array: the
insertion point, i.e. the number of elements that are at most v. The source
only calls it on sorted arrays, where the binary search it performs returns
exactly this count. -/
def searchsorted_right (arr : List Int) (v : Int) : Nat :=
  arr.countP (fun a => decide (a ≤ v))

/-- Embedding of compute_num_transpositions from src/src/Multivector.py:
for the head x of the second array, count the elements of the first array
strictly greater than x (length minus right insertion point), then recurse on
the tail. -/
def compute_num_transpositions (arr_1 : List Int) : List Int → Nat
  | [] => 0
  | x :: rest =>
      (arr_1.length - searchsorted_right arr_1 x) + compute_num_transpositions arr_1 rest

/-- Embedding of the bit-position extraction in compute_output_parity: the
ascending list of positions of set bits of x (enumerating the little-endian
bitstring of x, whose length is the bit length of x). -/
def bitIndices (x : Nat) : List Int :=
  ((List.range (bit_length x)).filter (fun k => x.testBit k)).map (fun k => (k : Int))

/-- Embedding of compute_output_parity from src/src/Multivector.py: sign
determined by the parity of the transposition count of the concatenated
set-bit-position lists. -/
def compute_output_parity (idx_1 idx_2 : Nat) : Int :=
  if compute_num_transpositions (bitIndices idx_1) (bitIndices idx_2) % 2 = 1 then -1 else 1

/-- Embedding of the MultiVector value type of src/src/Multivector.py: a dense
coefficient list (basis_expansion) together with the dimension n. -/
structure MV where
  coeffs : List ℚ
  n : Nat
deriving DecidableEq, Repr

/-- Embedding of get_zero_basis: a list of 2 ^ k zeros. -/
def get_zero_basis (k : Nat) : List ℚ := List.replicate (2 ^ k) 0

/-- Embedding of MultiVector.from_vector: n is the length of the input vector,
and coefficient 2 ^ i of the zero basis is set to v[i] for each i < n. -/
def from_vector (v : List ℚ) : MV :=
  ⟨(List.range v.length).foldl (fun acc i => acc.set (2 ^ i) (v.getD i 0))
      (get_zero_basis v.length), v.length⟩

/-- Elementwise sum of coefficient lists, the model of numpy array addition on
same-length arrays. -/
def addL (a b : List ℚ) : List ℚ := List.zipWith (· + ·) a b

/-- Elementwise scalar multiple of a coefficient list, the model of
other * self.values in MultiVector.mul of src/GAlgebra_Jake.py. -/
def scale (s : ℚ) (l : List ℚ) : List ℚ := l.map (fun x => s * x)

/-- Row-major enumeration of all ordered index pairs, the order of the two
nested for loops in geometric_product. -/
def pairList (nn : Nat) : List (Nat × Nat) :=
  (List.range nn).flatMap (fun i => (List.range nn).map (fun j => (i, j)))

/-- Accumulation loop of MultiVector.geometric_product: for each pair (i, j)
add coeff_a[i] * coeff_b[j] * parity into slot compute_output_index i j of the
accumulator. -/
def gpLoop (a b : List ℚ) : List (Nat × Nat) → List ℚ → List ℚ
  | [], acc => acc
  | (i, j) :: ps, acc =>
      gpLoop a b ps
        (acc.set (compute_output_index i j)
          (acc.getD (compute_output_index i j) 0 +
            a.getD i 0 * b.getD j 0 * (compute_output_parity i j : ℚ)))

/-- Embedding of the body of MultiVector.geometric_product: start from the
zero basis of length 2 ^ n and run the double loop over all pairs. -/
def geometric_product (n : Nat) (a b : List ℚ) : List ℚ :=
  gpLoop a b (pairList (2 ^ n)) (get_zero_basis n)

/-- Embedding of MultiVector.add: the source asserts equal dimensions (an
AssertionError surfaces on mismatch), then returns the elementwise sum. -/
def addE (x y : MV) : Except String MV :=
  if x.n = y.n then .ok ⟨addL x.coeffs y.coeffs, x.n⟩ else .error "AssertionError"

/-- Embedding of MultiVector.geometric_product at the object level: dimension
assertion, then the accumulation loop. -/
def geometric_productE (x y : MV) : Except String MV :=
  if x.n = y.n then .ok ⟨geometric_product x.n x.coeffs y.coeffs, x.n⟩
  else .error "AssertionError"

/-- Embedding of MultiVector.eq of src/src/Multivector.py: it never raises; it
returns the boolean conjunction of dimension equality and elementwise
coefficient equality. Wrapped in Except to express that no error path exists. -/
def eqE (x y : MV) : Except String Bool :=
  .ok (decide (x.n = y.n) && decide (x.coeffs = y.coeffs))

/-- Model of itertools.combinations: all strictly increasing r-element
sublists of l, in lexicographic order (those containing the head first). -/
def combinations : Nat → List Nat → List (List Nat)
  | 0, _ => [[]]
  | _ + 1, [] => []
  | r + 1, x :: xs => ((combinations r xs).map (fun t => x :: t)) ++ combinations (r + 1) xs

/-- Embedding of GN.canonical_basis built from more_itertools.powerset over
the labels e1 .. en: subsets ordered by size, lexicographically within each
size. A blade label is modelled as its ascending list of basis-vector numbers;
the empty list stands for the scalar label. -/
def canonical_basis (n : Nat) : List (List Nat) :=
  (List.range (n + 1)).flatMap (fun r => combinations r (List.range' 1 n))

/-- Insertion into a sorted list, ascending. -/
def insertSorted (x : Nat) : List Nat → List Nat
  | [] => [x]
  | y :: ys => if x ≤ y then x :: y :: ys else y :: insertSorted x ys

/-- Insertion sort, ascending. -/
def sortAsc (l : List Nat) : List Nat := l.foldr insertSorted []

/-- Model of set(l1).symmetric_difference(l2) joined back into a canonical
label: the elements lying in exactly one of the lists, in ascending order (the
canonical label order the table construction looks up). -/
def symmDiff (l1 l2 : List Nat) : List Nat :=
  sortAsc ((l1.filter (fun x => decide (x ∉ l2))) ++ (l2.filter (fun x => decide (x ∉ l1))))

/-- Embedding of the swap-counting loop of GN.basis_mult: walking l1 with
index ind, each element also present in l2 contributes
(len l1 - 1 - ind) + (index of it in l2 - matches so far); the state is the
pair (matches, swaps). Arithmetic is over Int, as in Python. -/
def countSwaps (l1 l2 : List Nat) : Int :=
  (l1.enum.foldl
    (fun st p =>
      if p.2 ∈ l2 then
        (st.1 + 1,
          st.2 + ((l1.length : Int) - 1 - (p.1 : Int)) +
            ((l2.indexOf p.2 : Int) - (st.1 : Int)))
      else st)
    ((0 : Nat), (0 : Int))).2

/-- Embedding of GN.basis_mult on label lists: scalar short-circuits, then the
symmetric difference of the label sets with the sign given by the parity of
countSwaps. The scalar result, label '1' in the source, is the empty list. -/
def basis_mult (b1 b2 : List Nat) : List Nat × Int :=
  if b1 = [] then (b2, 1)
  else if b2 = [] then (b1, 1)
  else
    let lr := symmDiff b1 b2
    let s : Int := if countSwaps b1 b2 % 2 = 0 then 1 else -1
    (lr, s)

/-- Decoded entry of GN's where_m table at (i, j): the canonical-basis position
of the product label together with the product sign (the scalar sentinel of
the table denotes canonical position 0). -/
def resolveTab (n i j : Nat) : Nat × Int :=
  let cb := canonical_basis n
  let r := basis_mult (cb.getD i []) (cb.getD j [])
  (cb.findIdx (fun x => x == r.1), r.2)

/-- The epsilon default of GN: 1e-7, exact as a rational. -/
def epsGN : ℚ := 1 / 10000000

/-- Raw where_m table entry of GN at (i, j): sign times epsilon for a scalar
result, sign times the canonical-basis position otherwise. -/
def whereEntry (n i j : Nat) : ℚ :=
  let cb := canonical_basis n
  let r := basis_mult (cb.getD i []) (cb.getD j [])
  if r.1 = [] then (r.2 : ℚ) * epsGN
  else (r.2 : ℚ) * ((cb.findIdx (fun x => x == r.1) : Nat) : ℚ)

/-- Model of np.sign on rationals. -/
def npSign (q : ℚ) : ℚ := if 0 < q then 1 else if q < 0 then -1 else 0

/-- Model of np.isclose(a, k, atol = epsilon * 10) with the default relative
tolerance 1e-5: the absolute difference is at most atol + rtol * |k|. -/
def isclose (a k : ℚ) : Bool :=
  decide (|a - k| ≤ 1 / 1000000 + (1 / 100000) * |k|)

/-- Embedding of MultiVector.prod of src/GAlgebra_Jake.py: output coefficient
k is the sum, over all entries of the where_m table close in magnitude to k,
of the table sign times the outer product a[i] * b[j]. -/
def prodGN (n : Nat) (a b : List ℚ) : List ℚ :=
  (List.range (2 ^ n)).map (fun k =>
    ((List.range (2 ^ n)).flatMap (fun i =>
      (List.range (2 ^ n)).map (fun j =>
        if isclose |whereEntry n i j| (k : ℚ)
        then npSign (whereEntry n i j) * (a.getD i 0 * b.getD j 0)
        else 0))).sum)

/-- Embedding of MultiVector.sum of src/GAlgebra_Jake.py: a ValueError on
dimension mismatch, otherwise the elementwise sum. -/
def sumJ (x y : MV) : Except String MV :=
  if x.n = y.n then .ok ⟨addL x.coeffs y.coeffs, x.n⟩ else .error "ValueError"

/-- Embedding of MultiVector.prod of src/GAlgebra_Jake.py at the object level:
a ValueError on dimension mismatch, otherwise the masked outer-product
reduction against the where_m table. -/
def prodJ (x y : MV) : Except String MV :=
  if x.n = y.n then .ok ⟨prodGN x.n x.coeffs y.coeffs, x.n⟩ else .error "ValueError"

end GeoAlg

namespace GeoAlg

theorem toBytes_fromBytes_roundtrip :
    ∀ (l x : Nat), x < 256 ^ l → fromBytesLE (toBytesLE l x) = x := by
  intro l
  induction l with
  | zero =>
      intro x hx
      simp only [pow_zero, Nat.lt_one_iff] at hx
      simp [hx, toBytesLE, fromBytesLE]
  | succ n ih =>
      intro x hx
      have hdiv : x / 256 < 256 ^ n := by
        rw [Nat.div_lt_iff_lt_mul (by norm_num : 0 < 256)]
        calc x < 256 ^ (n + 1) := hx
          _ = 256 ^ n * 256 := by ring
      simp only [toBytesLE, fromBytesLE, ih (x / 256) hdiv]
      omega

theorem size_le_bytes_bound (s : Nat) : s ≤ 8 * ((s + 7) / 8) := by omega

theorem lt_two_pow_bitLenAux :
    ∀ (fuel x : Nat), x ≤ fuel → x < 2 ^ bitLenAux fuel x := by
  intro fuel
  induction fuel with
  | zero =>
      intro x hx
      interval_cases x
      simp [bitLenAux]
  | succ f ih =>
      intro x hx
      by_cases h0 : x = 0
      · simp [bitLenAux, h0]
      · have hdiv : x / 2 ≤ f := by omega
        have := ih (x / 2) hdiv
        simp only [bitLenAux, h0, if_false]
        have h2 : x / 2 + 1 ≤ 2 ^ bitLenAux f (x / 2) := this
        calc x < 2 * (x / 2) + 2 := by omega
          _ ≤ 2 * 2 ^ bitLenAux f (x / 2) := by omega
          _ = 2 ^ (bitLenAux f (x / 2) + 1) := by ring

/-- Every natural is below 2 to its bit length. -/
theorem lt_two_pow_bit_length (x : Nat) : x < 2 ^ bit_length x :=
  lt_two_pow_bitLenAux x x le_rfl

/-- Helper: the byte round-trip in compute_output_index is the identity, so the
function returns exactly the XOR of its arguments. -/
theorem compute_output_index_eq_xor (i j : Nat) :
    compute_output_index i j = i ^^^ j := by
  unfold compute_output_index
  apply toBytes_fromBytes_roundtrip
  calc i ^^^ j < 2 ^ bit_length (i ^^^ j) := lt_two_pow_bit_length _
    _ ≤ 2 ^ (8 * ((bit_length (i ^^^ j) + 7) / 8)) := by
        exact Nat.pow_le_pow_right (by norm_num) (size_le_bytes_bound _)
    _ = 256 ^ ((bit_length (i ^^^ j) + 7) / 8) := by
        rw [Nat.pow_mul]

end GeoAlg

namespace GeoAlg

theorem compute_num_transpositions_nil_left (l : List Int) :
    compute_num_transpositions [] l = 0 := by
  induction l with
  | nil => rfl
  | cons x rest ih => simp [compute_num_transpositions, ih, searchsorted_right]

theorem compute_num_transpositions_nil_right (l : List Int) :
    compute_num_transpositions l [] = 0 := rfl

theorem bitIndices_zero : bitIndices 0 = [] := by
  simp [bitIndices, bit_length, bitLenAux]

theorem basis_mult_scalar_left (l : List Nat) : basis_mult [] l = (l, 1) := by
  simp [basis_mult]

theorem basis_mult_scalar_right (l : List Nat) : basis_mult l [] = (l, 1) := by
  rcases l with _ | ⟨x, xs⟩ <;> simp [basis_mult]

end GeoAlg

namespace GeoAlg

/-- C3: for every pair of non-negative integers, compute_output_index returns
exactly the XOR of its arguments (the byte-level little-endian round-trip the
source applies after the XOR is a no-op), and in particular resolving a blade
index against itself yields index 0, the scalar blade. -/
theorem c3_output_index_is_xor :
    (∀ i j : Nat, compute_output_index i j = i ^^^ j) ∧
    (∀ i : Nat, compute_output_index i i = 0) := by
  refine ⟨compute_output_index_eq_xor, fun i => ?_⟩
  rw [compute_output_index_eq_xor, Nat.xor_self]

/-- C10: the scalar blade is a two-sided identity at the blade level. In the
direct realization, resolving (0, j) and (j, 0) both give resulting index j
with parity +1 (index 0 decodes to an empty set-bit list, giving zero
transpositions); in GN.basis_mult, the scalar-label short-circuit branches
return the other label with sign +1. -/
theorem c10_scalar_identity :
    (∀ j : Nat,
      compute_output_index 0 j = j ∧ compute_output_index j 0 = j ∧
      compute_output_parity 0 j = 1 ∧ compute_output_parity j 0 = 1) ∧
    (∀ l : List Nat, basis_mult [] l = (l, 1) ∧ basis_mult l [] = (l, 1)) := by
  constructor
  · intro j
    refine ⟨?_, ?_, ?_, ?_⟩
    · rw [compute_output_index_eq_xor, Nat.zero_xor]
    · rw [compute_output_index_eq_xor, Nat.xor_zero]
    · simp [compute_output_parity, bitIndices_zero, compute_num_transpositions_nil_left]
    · simp [compute_output_parity, bitIndices_zero, compute_num_transpositions_nil_right]
  · intro l
    exact ⟨basis_mult_scalar_left l, basis_mult_scalar_right l⟩

/-- C1 (code bug evaluation): at dimension n = 2 — where GN's size-ordered
canonical basis coincides with the bit-index ordering — the tabulated
realization resolves the pair (2, 1), that is e2 times e1, to blade index 3
with sign +1 (table entry +3), while the direct realization resolves the same
pair to index 3 with sign -1. The two realizations disagree on the sign. -/
theorem c1_table_direct_disagreement :
    resolveTab 2 2 1 = (3, 1) ∧
    (compute_output_index 2 1, compute_output_parity 2 1) = (3, -1) ∧
    whereEntry 2 2 1 = 3 := by
  refine ⟨by decide, by decide, by with_unfolding_all rfl⟩

/-- C4 (code bug evaluation): for the distinct basis vectors e1 and e2 (blade
indices 1 and 2), the direct parity computation is antisymmetric (+1 against
-1), but GN.basis_mult returns sign +1 for both orders, because its swap count
only looks at labels common to the two blades. -/
theorem c4_sign_antisymmetry_divergence :
    compute_output_parity 1 2 = 1 ∧
    compute_output_parity 2 1 = -1 ∧
    basis_mult [1] [2] = ([1, 2], 1) ∧
    basis_mult [2] [1] = ([1, 2], 1) := by
  refine ⟨by decide, by decide, by decide, by decide⟩

/-- C2: in dimension 3, the geometric product of the multivector built by
from_vector from (2, 3, 4.5) and the multivector built by from_vector from
(1, 1, 1) is exactly the coefficient vector
(9.5, 0, 0, -1, 0, -2.5, -1.5, 0) in bit-index blade ordering. -/
theorem c2_vector_product_example :
    geometric_productE (from_vector [2, 3, 9/2]) (from_vector [1, 1, 1]) =
      .ok ⟨[19/2, 0, 0, -1, 0, -5/2, -3/2, 0], 3⟩ := by
  with_unfolding_all rfl

end GeoAlg

namespace GeoAlg

theorem sum_map_add_nat {α : Type} (l : List α) (f g : α → Nat) :
    (l.map (fun x => f x + g x)).sum = (l.map f).sum + (l.map g).sum := by
  induction l with
  | nil => rfl
  | cons a t ih => simp [ih]; omega

theorem countP_eq_sum_ite {α : Type} (l : List α) (p : α → Bool) :
    l.countP p = (l.map (fun x => if p x then 1 else 0)).sum := by
  induction l with
  | nil => rfl
  | cons a t ih => by_cases h : p a <;> simp [List.countP_cons, h, ih] <;> omega

theorem countP_gt_eq_sub (l1 : List Int) (x : Int) :
    l1.length - searchsorted_right l1 x = l1.countP (fun a => decide (x < a)) := by
  have hsplit := List.length_eq_countP_add_countP (fun a => decide (a ≤ x)) (l := l1)
  have hcongr : l1.countP (fun a => decide ¬(decide (a ≤ x) = true)) =
      l1.countP (fun a => decide (x < a)) := by
    apply List.countP_congr
    intro a _
    by_cases h : a ≤ x <;> simp [h, not_le.mp, lt_of_not_le] <;> omega
  unfold searchsorted_right
  omega

theorem num_transpositions_eq_sum (l1 l2 : List Int) :
    compute_num_transpositions l1 l2
      = (l2.map (fun x => l1.length - searchsorted_right l1 x)).sum := by
  induction l2 with
  | nil => rfl
  | cons x rest ih => simp [compute_num_transpositions, ih]

theorem num_transpositions_eq_sum_countP (l1 l2 : List Int) :
    compute_num_transpositions l1 l2
      = (l2.map (fun x => l1.countP (fun a => decide (x < a)))).sum := by
  rw [num_transpositions_eq_sum]
  congr 1
  apply List.map_congr_left
  intro x _
  exact countP_gt_eq_sub l1 x

theorem exchange_count (l1 l2 : List Int) :
    (l2.map (fun x => l1.countP (fun a => decide (x < a)))).sum
      = (l1.map (fun a => l2.countP (fun x => decide (x < a)))).sum := by
  induction l1 with
  | nil => simp
  | cons a t ih =>
      have hstep : (l2.map (fun x => (a :: t).countP (fun b => decide (x < b)))).sum
          = (l2.map (fun x => t.countP (fun b => decide (x < b)))).sum
            + (l2.map (fun x => if decide (x < a) then 1 else 0)).sum := by
        rw [← sum_map_add_nat]
        congr 1
        apply List.map_congr_left
        intro x _
        rw [List.countP_cons]
      rw [hstep, ih, ← countP_eq_sum_ite]
      simp [Nat.add_comm]

theorem product_countP_eq (l1 l2 : List Int) :
    (l1.product l2).countP (fun p => decide (p.2 < p.1))
      = (l1.map (fun a => l2.countP (fun x => decide (x < a)))).sum := by
  induction l1 with
  | nil => rfl
  | cons a t ih =>
      have hsplit : (a :: t).product l2 = l2.map (fun x => (a, x)) ++ t.product l2 := by
        simp [List.product]
      have hc : List.countP ((fun p => decide (p.2 < p.1)) ∘ fun x => (a, x)) l2
          = List.countP (fun x => decide (x < a)) l2 := by
        apply List.countP_congr
        intro x _
        simp [Function.comp]
      rw [hsplit, List.countP_append, List.countP_map, ih, hc]
      simp

end GeoAlg

namespace GeoAlg

/-- C6: on sorted integer arrays, compute_num_transpositions returns the sum
over each element x of the second list of (length of the first list minus the
count of its elements that are at most x), which is the number of pairs (a, b)
with a from the first list, b from the second and a > b; on the sorted arrays
(1, 3, 4) and (2, 3) it returns exactly 3. -/
theorem c6_transposition_count (l1 l2 : List Int)
    (h1 : List.Sorted (· ≤ ·) l1) (h2 : List.Sorted (· ≤ ·) l2) :
    compute_num_transpositions l1 l2
      = (l2.map (fun x => l1.length - searchsorted_right l1 x)).sum ∧
    compute_num_transpositions l1 l2
      = (l1.product l2).countP (fun p => decide (p.2 < p.1)) ∧
    compute_num_transpositions ([1, 3, 4] : List Int) [2, 3] = 3 := by
  refine ⟨num_transpositions_eq_sum l1 l2, ?_, by decide⟩
  rw [num_transpositions_eq_sum_countP, exchange_count, product_countP_eq]

/-- Witness for C6 at the concrete sorted arrays (1, 3, 4) and (2, 3). -/
theorem c6_transposition_count_witness :
    (List.Sorted (· ≤ ·) ([1, 3, 4] : List Int) ∧
      List.Sorted (· ≤ ·) ([2, 3] : List Int)) ∧
    (compute_num_transpositions ([1, 3, 4] : List Int) [2, 3]
        = (([2, 3] : List Int).map
            (fun x => ([1, 3, 4] : List Int).length - searchsorted_right [1, 3, 4] x)).sum ∧
      compute_num_transpositions ([1, 3, 4] : List Int) [2, 3]
        = ((([1, 3, 4] : List Int).product [2, 3]).countP (fun p => decide (p.2 < p.1))) ∧
      compute_num_transpositions ([1, 3, 4] : List Int) [2, 3] = 3) :=
  ⟨⟨by decide, by decide⟩, c6_transposition_count [1, 3, 4] [2, 3] (by decide) (by decide)⟩

end GeoAlg

namespace GeoAlg

theorem length_foldl_set (v : List ℚ) :
    ∀ (idxs : List Nat) (init : List ℚ),
      (idxs.foldl (fun acc i => acc.set (2 ^ i) (v.getD i 0)) init).length = init.length := by
  intro idxs
  induction idxs with
  | nil => intro init; rfl
  | cons i rest ih =>
      intro init
      simp only [List.foldl_cons, ih, List.length_set]

end GeoAlg

namespace GeoAlg

/-- C7 (amended): on operands of different dimensions, add and the geometric
product of src/src/Multivector.py fail with an AssertionError, and the sum and
prod of src/GAlgebra_Jake.py fail with a ValueError, all before computing
anything; the equality comparison, however, does not raise: it returns the
normal boolean result false. -/
theorem c7_dimension_mismatch (x y : MV) (h : x.n ≠ y.n) :
    addE x y = .error "AssertionError" ∧
    geometric_productE x y = .error "AssertionError" ∧
    sumJ x y = .error "ValueError" ∧
    prodJ x y = .error "ValueError" ∧
    eqE x y = .ok false := by
  refine ⟨?_, ?_, ?_, ?_, ?_⟩ <;> simp [addE, geometric_productE, sumJ, prodJ, eqE, h]

/-- Witness for C7 at a dimension-1 and a dimension-2 multivector. -/
theorem c7_dimension_mismatch_witness :
    ((⟨[0, 0], 1⟩ : MV).n ≠ (⟨[0, 0, 0, 0], 2⟩ : MV).n) ∧
    (addE ⟨[0, 0], 1⟩ ⟨[0, 0, 0, 0], 2⟩ = .error "AssertionError" ∧
      geometric_productE ⟨[0, 0], 1⟩ ⟨[0, 0, 0, 0], 2⟩ = .error "AssertionError" ∧
      sumJ ⟨[0, 0], 1⟩ ⟨[0, 0, 0, 0], 2⟩ = .error "ValueError" ∧
      prodJ ⟨[0, 0], 1⟩ ⟨[0, 0, 0, 0], 2⟩ = .error "ValueError" ∧
      eqE ⟨[0, 0], 1⟩ ⟨[0, 0, 0, 0], 2⟩ = .ok false) :=
  ⟨by decide, c7_dimension_mismatch ⟨[0, 0], 1⟩ ⟨[0, 0, 0, 0], 2⟩ (by decide)⟩

/-- C7 (counterexample to the claim as stated): comparing a dimension-1 and a
dimension-2 multivector for equality does not surface any error; the source's
eq returns the ordinary value false. -/
theorem c7_eq_returns_normal_result :
    eqE ⟨[0, 0], 1⟩ ⟨[0, 0, 0, 0], 2⟩ = .ok false := by
  with_unfolding_all rfl

/-- C8 (amended): from_vector never fails; it returns a multivector whose
dimension is the input length and whose coefficient list has length 2 to that
dimension — in particular the empty vector gives the dimension-0 multivector
rather than an error. -/
theorem c8_from_vector_total (v : List ℚ) :
    (from_vector v).n = v.length ∧
    (from_vector v).coeffs.length = 2 ^ v.length := by
  constructor
  · rfl
  · change ((List.range v.length).foldl (fun acc i => acc.set (2 ^ i) (v.getD i 0))
        (get_zero_basis v.length)).length = 2 ^ v.length
    rw [length_foldl_set]
    simp [get_zero_basis]

/-- C8 (counterexample to the claim as stated): applied to the empty vector,
from_vector returns the dimension-0 multivector with the single coefficient 0
instead of raising a DimensionError. -/
theorem c8_empty_vector_returns :
    from_vector ([] : List ℚ) = ⟨[0], 0⟩ := by
  with_unfolding_all rfl

end GeoAlg

namespace GeoAlg

theorem getD_map_mul (s : ℚ) :
    ∀ (l : List ℚ) (i : Nat), (l.map (fun x => s * x)).getD i 0 = s * l.getD i 0 := by
  intro l
  induction l with
  | nil => intro i; simp
  | cons x t ih =>
      intro i
      cases i with
      | zero => simp
      | succ k => simpa using ih k

theorem getD_zipWith_add :
    ∀ (a b : List ℚ), a.length = b.length →
      ∀ i, (List.zipWith (· + ·) a b).getD i 0 = a.getD i 0 + b.getD i 0 := by
  intro a
  induction a with
  | nil =>
      intro b h i
      have hb : b = [] := by
        cases b with
        | nil => rfl
        | cons y u => simp at h
      simp [hb]
  | cons x t ih =>
      intro b h i
      cases b with
      | nil => simp at h
      | cons y u =>
          cases i with
          | zero => simp
          | succ k => simpa using ih u (by simpa using h) k

theorem zipWith_add_set :
    ∀ (a b : List ℚ), a.length = b.length →
      ∀ (k : Nat) (p q : ℚ),
        List.zipWith (· + ·) (a.set k p) (b.set k q)
          = (List.zipWith (· + ·) a b).set k (p + q) := by
  intro a
  induction a with
  | nil =>
      intro b h k p q
      have hb : b = [] := by
        cases b with
        | nil => rfl
        | cons y u => simp at h
      simp [hb]
  | cons x t ih =>
      intro b h k p q
      cases b with
      | nil => simp at h
      | cons y u =>
          cases k with
          | zero => simp
          | succ m =>
              simp only [List.set_cons_succ, List.zipWith_cons_cons]
              rw [ih u (by simpa using h) m]

theorem gpLoop_scale (s : ℚ) (a b : List ℚ) :
    ∀ (ps : List (Nat × Nat)) (acc : List ℚ),
      gpLoop (a.map (fun x => s * x)) b ps (acc.map (fun x => s * x))
        = (gpLoop a b ps acc).map (fun x => s * x) := by
  intro ps
  induction ps with
  | nil => intro acc; rfl
  | cons p rest ih =>
      intro acc
      obtain ⟨i, j⟩ := p
      simp only [gpLoop]
      have harg :
          (acc.map (fun x => s * x)).set (compute_output_index i j)
              ((acc.map (fun x => s * x)).getD (compute_output_index i j) 0 +
                (a.map (fun x => s * x)).getD i 0 * b.getD j 0 *
                  (compute_output_parity i j : ℚ))
            = (acc.set (compute_output_index i j)
                (acc.getD (compute_output_index i j) 0 +
                  a.getD i 0 * b.getD j 0 * (compute_output_parity i j : ℚ))).map
                (fun x => s * x) := by
        rw [List.map_set, getD_map_mul, getD_map_mul]
        congr 1
        ring
      rw [harg, ih]

theorem gpLoop_add (a b c : List ℚ) (hab : a.length = b.length) :
    ∀ (ps : List (Nat × Nat)) (acc1 acc2 : List ℚ), acc1.length = acc2.length →
      gpLoop (List.zipWith (· + ·) a b) c ps (List.zipWith (· + ·) acc1 acc2)
        = List.zipWith (· + ·) (gpLoop a c ps acc1) (gpLoop b c ps acc2) := by
  intro ps
  induction ps with
  | nil => intro acc1 acc2 _; rfl
  | cons p rest ih =>
      intro acc1 acc2 hacc
      obtain ⟨i, j⟩ := p
      simp only [gpLoop]
      have harg :
          (List.zipWith (· + ·) acc1 acc2).set (compute_output_index i j)
              ((List.zipWith (· + ·) acc1 acc2).getD (compute_output_index i j) 0 +
                (List.zipWith (· + ·) a b).getD i 0 * c.getD j 0 *
                  (compute_output_parity i j : ℚ))
            = List.zipWith (· + ·)
                (acc1.set (compute_output_index i j)
                  (acc1.getD (compute_output_index i j) 0 +
                    a.getD i 0 * c.getD j 0 * (compute_output_parity i j : ℚ)))
                (acc2.set (compute_output_index i j)
                  (acc2.getD (compute_output_index i j) 0 +
                    b.getD i 0 * c.getD j 0 * (compute_output_parity i j : ℚ))) := by
        rw [zipWith_add_set acc1 acc2 hacc,
          getD_zipWith_add acc1 acc2 hacc, getD_zipWith_add a b hab]
        congr 1
        ring
      rw [harg, ih _ _ (by simp [List.length_set, hacc])]

end GeoAlg

namespace GeoAlg

theorem sum_map_add_q {α : Type} (l : List α) (f g : α → ℚ) :
    (l.map (fun x => f x + g x)).sum = (l.map f).sum + (l.map g).sum := by
  induction l with
  | nil => simp
  | cons x t ih =>
      simp only [List.map_cons, List.sum_cons, ih]
      ring

theorem sum_flatMap_q {α : Type} (l : List α) (f : α → List ℚ) :
    (l.flatMap f).sum = (l.map (fun x => (f x).sum)).sum := by
  induction l with
  | nil => rfl
  | cons x t ih => simp [List.sum_append, ih]

theorem zipWith_map_same {α : Type} (l : List α) (F G : α → ℚ) :
    List.zipWith (· + ·) (l.map F) (l.map G) = l.map (fun x => F x + G x) := by
  induction l with
  | nil => rfl
  | cons x t ih => simp [ih]

theorem prodGN_scale (n : Nat) (s : ℚ) (a b : List ℚ) :
    prodGN n (scale s a) b = scale s (prodGN n a b) := by
  unfold prodGN scale
  rw [List.map_map]
  apply List.map_congr_left
  intro k _
  simp only [Function.comp]
  rw [sum_flatMap_q, sum_flatMap_q, ← List.sum_map_mul_left]
  apply congrArg List.sum
  apply List.map_congr_left
  intro i _
  rw [← List.sum_map_mul_left]
  apply congrArg List.sum
  apply List.map_congr_left
  intro j _
  simp only [getD_map_mul]
  by_cases h : isclose |whereEntry n i j| (k : ℚ) <;> simp [h] <;> ring

theorem prodGN_add (n : Nat) (a b c : List ℚ) (hab : a.length = b.length) :
    prodGN n (addL a b) c = addL (prodGN n a c) (prodGN n b c) := by
  unfold prodGN addL
  rw [zipWith_map_same]
  apply List.map_congr_left
  intro k _
  rw [sum_flatMap_q, sum_flatMap_q, sum_flatMap_q, ← sum_map_add_q]
  apply congrArg List.sum
  apply List.map_congr_left
  intro i _
  rw [← sum_map_add_q]
  apply congrArg List.sum
  apply List.map_congr_left
  intro j _
  simp only [getD_zipWith_add a b hab]
  by_cases h : isclose |whereEntry n i j| (k : ℚ) <;> simp [h] <;> ring

theorem map_mul_zero_basis (s : ℚ) (n : Nat) :
    (get_zero_basis n).map (fun x => s * x) = get_zero_basis n := by
  simp [get_zero_basis]

theorem zipWith_add_zero_basis (n : Nat) :
    List.zipWith (· + ·) (get_zero_basis n) (get_zero_basis n) = get_zero_basis n := by
  simp [get_zero_basis, List.zipWith_replicate]

end GeoAlg

namespace GeoAlg

/-- C5: the geometric product is left-bilinear in both implementations. For
same-dimension coefficient vectors a, b, c of an algebra of dimension n (the
source bounds n below 10) and any scalar s, scaling the left operand scales
the product, and adding left operands adds the products — both for the
pairwise accumulation loop geometric_product of src/src/Multivector.py and for
the masked outer-product reduction prod of src/GAlgebra_Jake.py. -/
theorem c5_bilinearity (n : Nat) (s : ℚ) (a b c : List ℚ)
    (hn : n < 10) (ha : a.length = 2 ^ n) (hb : b.length = 2 ^ n)
    (hc : c.length = 2 ^ n) :
    geometric_product n (scale s a) b = scale s (geometric_product n a b) ∧
    geometric_product n (addL a b) c
      = addL (geometric_product n a c) (geometric_product n b c) ∧
    prodGN n (scale s a) b = scale s (prodGN n a b) ∧
    prodGN n (addL a b) c = addL (prodGN n a c) (prodGN n b c) := by
  refine ⟨?_, ?_, prodGN_scale n s a b, prodGN_add n a b c (by rw [ha, hb])⟩
  · show gpLoop (a.map (fun x => s * x)) b (pairList (2 ^ n)) (get_zero_basis n)
      = (gpLoop a b (pairList (2 ^ n)) (get_zero_basis n)).map (fun x => s * x)
    rw [← map_mul_zero_basis s n, gpLoop_scale, map_mul_zero_basis]
  · show gpLoop (List.zipWith (· + ·) a b) c (pairList (2 ^ n)) (get_zero_basis n)
      = List.zipWith (· + ·) (gpLoop a c (pairList (2 ^ n)) (get_zero_basis n))
          (gpLoop b c (pairList (2 ^ n)) (get_zero_basis n))
    conv_lhs => rw [← zipWith_add_zero_basis n]
    exact gpLoop_add a b c (by rw [ha, hb]) _ _ _ rfl

/-- Witness for C5 in dimension 1 with s = 2, a = (1, 2), b = (3, 4),
c = (5, 6). -/
theorem c5_bilinearity_witness :
    ((1 : Nat) < 10 ∧ ([(1 : ℚ), 2]).length = 2 ^ 1 ∧
      ([(3 : ℚ), 4]).length = 2 ^ 1 ∧ ([(5 : ℚ), 6]).length = 2 ^ 1) ∧
    (geometric_product 1 (scale 2 [1, 2]) [3, 4]
        = scale 2 (geometric_product 1 [1, 2] [3, 4]) ∧
      geometric_product 1 (addL [1, 2] [3, 4]) [5, 6]
        = addL (geometric_product 1 [1, 2] [5, 6]) (geometric_product 1 [3, 4] [5, 6]) ∧
      prodGN 1 (scale 2 [1, 2]) [3, 4] = scale 2 (prodGN 1 [1, 2] [3, 4]) ∧
      prodGN 1 (addL [1, 2] [3, 4]) [5, 6]
        = addL (prodGN 1 [1, 2] [5, 6]) (prodGN 1 [3, 4] [5, 6])) :=
  ⟨⟨by decide, by decide, by decide, by decide⟩,
    c5_bilinearity 1 2 [1, 2] [3, 4] [5, 6] (by decide) (by decide) (by decide) (by decide)⟩

end GeoAlg
